import Mathlib

/-!
Shallow embedding of the REPL evaluation-and-completion engine
(`src/index.js` of the node-repl-prototype repository).

The engine talks to the target process over an asynchronous introspection
protocol (`Runtime.evaluate`, `Runtime.getProperties`,
`Runtime.callFunctionOn`, `Runtime.globalLexicalScopeNames`) and uses two
parsers (the tolerant `parse_dammit` and strict `acorn.parse`).  Those round
trips, together with the helper modules that are not part of the corpus
(`./recoverable`, `./await`, `./NativeFunctions`, the `isIdentifier` check of
`./util`), are modelled as fields of an `Oracle` record: pure functions the
engine consumes.  The engine's own mutations of the process-wide session
state (`global.REPL.last`, `global.REPL.lastError`,
`global.REPL._inspectTarget`, and the module-level
`functionCompletionCache`) are threaded explicitly through a `REPLState`
value.  JavaScript strings are modelled as Lean `String` (sequences of code
points; the claims under study only involve BMP text, where the two agree).
-/

/-! ## JavaScript string primitives -/

/-- Character class of the JavaScript `\s` regex class and of `String.prototype.trim`
(WhiteSpace ∪ LineTerminator). -/
def isJsWs (c : Char) : Bool :=
  let n := c.toNat
  n == 9 || n == 10 || n == 11 || n == 12 || n == 13 || n == 32 ||
  n == 160 || n == 5760 || (decide (8192 ≤ n) && decide (n ≤ 8202)) ||
  n == 8232 || n == 8233 || n == 8239 || n == 8287 || n == 12288 || n == 65279

/-- JavaScript `String.prototype.trim`: strip `\s` characters from both ends. -/
def jsTrim (s : String) : String :=
  (((s.data.dropWhile isJsWs).reverse.dropWhile isJsWs).reverse).asString

/-- JavaScript `String.prototype.startsWith` with a string argument. -/
def jsStartsWith (s pre : String) : Bool :=
  pre.data.isPrefixOf s.data

/-- JavaScript `String.prototype.endsWith` with a string argument. -/
def jsEndsWith (s suf : String) : Bool :=
  suf.data.isSuffixOf s.data

/-- Helper for `jsIncludes`: does `pat` occur in the list? -/
def containsSubAux (pat : List Char) : List Char → Bool
  | [] => pat.isEmpty
  | c :: t => pat.isPrefixOf (c :: t) || containsSubAux pat t

/-- JavaScript `String.prototype.includes`. -/
def jsIncludes (s pat : String) : Bool :=
  containsSubAux pat.data s.data

/-- JavaScript `String.prototype.slice(start, end)` for in-range indices. -/
def jsSlice (s : String) (start stop : Nat) : String :=
  ((s.data.drop start).take (stop - start)).asString

/-- JavaScript `String.prototype.slice(start)` (one-argument form). -/
def jsSliceFrom (s : String) (start : Nat) : String :=
  (s.data.drop start).asString

/-- JavaScript `String.prototype.lastIndexOf` for a single character
(`-1` when absent). -/
def jsLastIndexOf (s : String) (c : Char) : Int :=
  match s.data.reverse.findIdx? (fun d => d == c) with
  | some i => (s.data.length : Int) - 1 - (i : Int)
  | none => -1

/-! ## Object-literal disambiguation (`wrapObjectLiteralExpressionIfNeeded`) -/

/-- Test used by the regexes `/^\s*\x7b/` (and, on the reversed text,
`/\x7d\s*$/`): skip whitespace, then require `target` as the next character. -/
def skipWsStarts (target : Char) : List Char → Bool
  | [] => false
  | c :: t => if c == target then true else if isJsWs c then skipWsStarts target t else false

/-- Regex test `/^\s*\x7b/.test(code)` from `wrapObjectLiteralExpressionIfNeeded`. -/
def reStartsWithBrace (code : String) : Bool :=
  skipWsStarts (Char.ofNat 123) code.data

/-- Regex test `/\x7d\s*$/.test(code)` from `wrapObjectLiteralExpressionIfNeeded`. -/
def reEndsWithBrace (code : String) : Bool :=
  skipWsStarts (Char.ofNat 125) code.data.reverse

/-- Combined brace-shape guard of `wrapObjectLiteralExpressionIfNeeded`. -/
def braceShape (code : String) : Bool :=
  reStartsWithBrace code && reEndsWithBrace code

/-- Text `return CODE;` handed to the function-body parse check. -/
def jsReturnWrap (code : String) : String :=
  "return " ++ code ++ ";"

/-- Text `(CODE)` used both as parse check and as the wrapped result. -/
def jsParenWrap (code : String) : String :=
  "(" ++ code ++ ")"

/-- Embedding of `wrapObjectLiteralExpressionIfNeeded` (src/index.js lines
35-54).  `parses` stands for the host parser obtained from
`(async () => 0).constructor`: `parses t = true` when constructing a function
with body `t` does not throw.  The two `try`-protected parses of the source
become tests of `parses`; either failure falls back to the original code. -/
def wrapObjectLiteralExpressionIfNeeded (parses : String → Bool) (code : String) : String :=
  if !(reStartsWithBrace code && reEndsWithBrace code) then code
  else if parses (jsReturnWrap code) then
    if parses (jsParenWrap code) then jsParenWrap code else code
  else code

/-! ## Data model: remote values, requests, parsed shapes -/

/-- Protocol-level description of a value living in the target process
(`Runtime.RemoteObject`). -/
structure RemoteObject where
  type : String
  subtype : Option String
  className : Option String
  description : String
  objectId : Option String

/-- Exception half of an evaluation response. -/
structure ExceptionDetails where
  exception : RemoteObject

/-- Response of `Runtime.evaluate` / `Runtime.callFunctionOn`. -/
structure EvaluateResult where
  result : RemoteObject
  exceptionDetails : Option ExceptionDetails

/-- Request issued by `performEval` to `Runtime.evaluate`. -/
structure EvalRequest where
  expression : String
  generatePreview : Bool
  awaitPromise : Bool
  silent : Bool
  throwOnSideEffect : Bool
  timeout : Option Nat
  executionContextId : Nat

/-- Entry returned by `Runtime.getProperties`: a property name, whether it is
an own property, and whether it is symbol-keyed. -/
structure PropEntry where
  name : String
  isOwn : Bool
  symbol : Bool

/-- Parameter patterns of a parsed parameter list (the acorn AST shapes
consumed by the inner `paramName` function of `onAutocomplete`).  An
`objectPattern` holds the `.value` sub-patterns of its property nodes, which
is what `paramName` recurses into. -/
inductive Pattern where
  | identifier (name : String)
  | assignment (left : Pattern)
  | objectPattern (propValues : List Pattern)
  | arrayPattern (elements : List Pattern)
  | restElement (argument : Pattern)
  | otherPattern

/-- Member of a parsed class body (`expr.body.body` entries): its `kind`
string and the parameter list of its value. -/
structure ClassMethod where
  kind : String
  valueParams : List Pattern

/-- Value node of an object-literal property; `params` is present exactly
when the value is function-shaped. -/
structure PropValueNode where
  params : Option (List Pattern)

/-- Property node of a parsed object literal; `value` may be absent. -/
structure ObjProp where
  value : Option PropValueNode

/-- First expression of an `acorn.parse` result for a function description,
as discriminated by the `switch (expr.type)` in `onAutocomplete`. -/
inductive DescExpr where
  | classExpr (body : Option (List ClassMethod))
  | objectExpr (props : List ObjProp)
  | funcExpr (params : List Pattern)
  | arrowFuncExpr (params : List Pattern)
  | otherExpr

/-- Literal values that can appear as a computed member property in the loose
parse (string, number, boolean or null literals). -/
inductive LitVal where
  | str (s : String)
  | num (n : Int)
  | bool (b : Bool)
  | nullLit

/-- Property node of a loosely parsed member expression. -/
inductive LooseProp where
  | literal (value : LitVal) (raw : String)
  | identifier (name : String)
  | otherProp

/-- Callee description of a loosely parsed call expression: its source span
and, when the callee is itself a member expression, the span of its object. -/
structure CalleeInfo where
  calleeStart : Nat
  calleeEnd : Nat
  isMember : Bool
  objStart : Nat
  objEnd : Nat

/-- Classification of the first statement's expression in the loose parse of
the buffer (`parseDammit(buffer).body[0].expression`). -/
inductive LooseExpr where
  | ident (name : String)
  | call (callee : CalleeInfo) (numArgs : Nat)
  | member (objStart objEnd : Nat) (computed : Bool) (property : LooseProp)
  | otherExpr

/-- First statement of the loose parse of the buffer. -/
inductive LooseStmt where
  | exprStmt (expression : LooseExpr)
  | otherStmt

/-- Outcome of `onAutocomplete`: a candidate list, a single suggestion or
inline-preview string, `undefined`, or a thrown (rejected) computation. -/
inductive CompletionOutcome where
  | list (keys : List String)
  | text (s : String)
  | undef
  | error

/-- Outcome of `onLine`: the continuation signal `IO.kNeedsAnotherLine` or a
rendered output string. -/
inductive LineOutcome where
  | needsAnotherLine
  | output (s : String)

/-- Session state mutated by the engine: the `global.REPL.last`,
`global.REPL.lastError` and `global.REPL._inspectTarget` slots, plus the
module-level `functionCompletionCache` map (keyed by `objectId`, which is
absent for primitive results, hence the `Option String` keys). -/
structure REPLState where
  last : Option RemoteObject
  lastError : Option RemoteObject
  inspectTarget : Option RemoteObject
  functionCompletionCache : List (Option String × List String)

/-- Environment of the engine: the protocol client, the parsers, and the
helper modules that live outside `src/index.js`.  All are consumed as pure
functions; each round trip's result is fully determined by its request.

`parseDammit` yields the first statement of the loose parse, or `none` when
`body[0]` is absent (reading `.type` of it would throw).  `parseDammitFnName`
is the composite `parseDammit(description).body[0].id.name`, `none` when that
access chain throws.  `acornParse` is `none` when `acorn.parse` throws, and
`some none` when it parses but `body[0].expression` is absent.
`nativeGlobalThis name` is `NativeFunctions.globalThis[name]?.[0]` and
`nativeLookup recv name` is `NativeFunctions[recv][name]?.[0]` (the
`NativeFunctions` table is a static data module outside the corpus).
`isRecoverableError` is the predicate of `./recoverable` and
`processTopLevelAwait` the rewrite of `./await` (`none` = `null`, no
rewrite); both modules are outside the corpus.  The three `inspect` fields
stand for the `util.inspect` renderings used by `onLine` and
`oneLineEval`. -/
structure Oracle where
  evaluate : EvalRequest → EvaluateResult
  getProperties : Option String → Option (List PropEntry)
  globalLexicalScopeNames : Option (List String)
  ownGlobalNames : List String
  parses : String → Bool
  parseDammit : String → Option LooseStmt
  parseDammitFnName : String → Option String
  acornParse : String → Option (Option DescExpr)
  nativeGlobalThis : String → Option (List String)
  nativeLookup : String → String → Option (List String)
  isRecoverableError : String → Bool
  processTopLevelAwait : String → Option String
  isIdentifier : String → Bool
  inspectLocal : RemoteObject → String
  inspectRemoteTarget : RemoteObject → String
  inspectPrim : RemoteObject → String
  mainContextId : Nat

/-! ## Speculative evaluator (`performEval`) -/

/-- Request built by `performEval` (src/index.js lines 66-77): the expression
is object-literal disambiguated, `generatePreview` is always `true`, and
best-effort mode switches on `silent`, `throwOnSideEffect` and the 500 ms
timeout. -/
def performEvalRequest (o : Oracle) (code : String) (awaitPromise bestEffort : Bool) :
    EvalRequest :=
  { expression := wrapObjectLiteralExpressionIfNeeded o.parses code
    generatePreview := true
    awaitPromise := awaitPromise
    silent := bestEffort
    throwOnSideEffect := bestEffort
    timeout := if bestEffort then some 500 else none
    executionContextId := o.mainContextId }

/-- Embedding of `performEval`: issue the request to `Runtime.evaluate`. -/
def performEval (o : Oracle) (code : String) (awaitPromise bestEffort : Bool) :
    EvaluateResult :=
  o.evaluate (performEvalRequest o code awaitPromise bestEffort)

/-! ## Statement evaluator (`onLine`) -/

/-- Await-rewrite preamble of `onLine` (src/index.js lines 88-95): the
rewrite is attempted only when the line contains the substring `await`; the
result is the line to evaluate and the `awaited` flag. -/
def onLineProcess (o : Oracle) (line : String) : String × Bool :=
  if jsIncludes line "await" then
    match o.processTopLevelAwait line with
    | some processed => (processed, true)
    | none => (line, false)
  else (line, false)

/-- Evaluation request issued by `onLine` for a submitted line: the processed
line in direct mode, with `awaitPromise` set iff the rewrite fired. -/
def onLineRequest (o : Oracle) (line : String) : EvalRequest :=
  performEvalRequest o (onLineProcess o line).1 (onLineProcess o line).2 false

/-- Embedding of `onLine` (src/index.js lines 87-122).  On an exception whose
disambiguated source is classified recoverable, the continuation signal is
returned and no state is touched; otherwise the thrown value is stored into
`lastError` (via the `callFunctionOn` setter closure) and rendered; on
success the result is stored into `last` and rendered. -/
def onLine (o : Oracle) (st : REPLState) (line : String) : LineOutcome × REPLState :=
  let processed := (onLineProcess o line).1
  let evaluateResult := o.evaluate (onLineRequest o line)
  match evaluateResult.exceptionDetails with
  | some details =>
      if o.isRecoverableError (wrapObjectLiteralExpressionIfNeeded o.parses processed) then
        (LineOutcome.needsAnotherLine, st)
      else
        (LineOutcome.output (o.inspectLocal details.exception),
         { st with lastError := some details.exception })
  | none =>
      (LineOutcome.output (o.inspectLocal evaluateResult.result),
       { st with last := some evaluateResult.result })

/-! ## Inline preview (`oneLineEval`) -/

/-- Conversion of `oneLineEval`'s `Option String` result to a completion
outcome (`undefined` when the speculative evaluation failed). -/
def olToOutcome : Option String → CompletionOutcome
  | some s => CompletionOutcome.text s
  | none => CompletionOutcome.undef

/-- Embedding of `oneLineEval` (src/index.js lines 124-148): a best-effort
evaluation of the buffer (note the source disambiguates the text once itself
and `performEval` does so a second time).  A failure yields `undefined`.  A
result with an `objectId` is mirrored into `global.REPL._inspectTarget` via
`callFunctionOn` and rendered locally (trimmed); a primitive result is
rendered from its value.  Only the `inspectTarget` slot is written. -/
def oneLineEval (o : Oracle) (st : REPLState) (source : String) :
    Option String × REPLState :=
  let er := performEval o (wrapObjectLiteralExpressionIfNeeded o.parses source) false true
  match er.exceptionDetails with
  | some _ => (none, st)
  | none =>
    match er.result.objectId with
    | some _ =>
        (some (" // " ++ jsTrim (o.inspectRemoteTarget er.result)),
         { st with inspectTarget := some er.result })
    | none => (some (" // " ++ o.inspectPrim er.result), st)

/-! ## Global names -/

/-- Embedding of `collectGlobalNames` (src/index.js lines 56-62): own names
of the global object, with the lexical scope names prepended via `unshift`;
a failing round trip leaves just the own names. -/
def collectGlobalNames (o : Oracle) : List String :=
  match o.globalLexicalScopeNames with
  | some names => names ++ o.ownGlobalNames
  | none => o.ownGlobalNames

/-! ## Signature cache -/

/-- Lookup in the `functionCompletionCache` map (`Map.prototype.get`). -/
def cacheGet (m : List (Option String × List String)) (k : Option String) :
    Option (List String) :=
  match m.find? (fun e => e.1 == k) with
  | some e => some e.2
  | none => none

/-- Update of the `functionCompletionCache` map (`Map.prototype.set`). -/
def cacheSet (m : List (Option String × List String)) (k : Option String)
    (v : List String) : List (Option String × List String) :=
  (k, v) :: m

/-! ## Parameter tokens (`paramName`) and argument suggestions (`finishParams`) -/

mutual

/-- Embedding of the recursive `paramName` mapper (src/index.js lines
252-271): identifier to itself, default value to a `?`-prefixed token, rest
parameter to a `...`-prefixed token, object pattern to a brace-grouped list
of its field tokens, array pattern to a bracket-grouped list of its element
tokens, anything else to the placeholder `?`. -/
def paramName : Pattern → String
  | Pattern.identifier name => name
  | Pattern.assignment left => "?" ++ paramName left
  | Pattern.objectPattern propValues =>
      "\x7b " ++ String.intercalate ", " (paramNameList propValues) ++ " \x7d"
  | Pattern.arrayPattern elements =>
      "[ " ++ String.intercalate ", " (paramNameList elements) ++ " ]"
  | Pattern.restElement argument => "..." ++ paramName argument
  | Pattern.otherPattern => "?"

/-- Map `paramName` over a pattern list (the `.map(paramName)` calls). -/
def paramNameList : List Pattern → List String
  | [] => []
  | p :: ps => paramName p :: paramNameList ps

end

/-- Embedding of the inner `finishParams` closure (src/index.js lines
179-195), abstracted over its captured `expression.arguments.length` and
`buffer`: `none` when the supplied argument count equals the parameter
count; otherwise the not-yet-supplied tokens joined by `", "`, prefixed
according to how the buffer ends. -/
def finishParams (numArgs : Nat) (buffer : String) (params : List String) :
    Option String :=
  if numArgs = params.length then none
  else
    let ps := String.intercalate ", " (params.drop numArgs)
    if 0 < numArgs then
      if jsEndsWith (jsTrim buffer) "," then
        let spaces : Int := (buffer.data.length : Int) - (jsLastIndexOf buffer (Char.ofNat 44) + 1)
        if 0 < spaces then some ps else some (" " ++ ps)
      else some (", " ++ ps)
    else some ps

/-! ## Bracket-key formatting -/

/-- Modelled from the spec: `strEscape` (imported from `./util`, a module not
in the corpus) renders a property key as "the quoted key" — the key wrapped
in single quotes.  (Interior escaping of exotic characters is not modelled;
the keys the claims concern contain none.) -/
def strEscape (s : String) : String :=
  "\x27" ++ s ++ "\x27"

/-- Decimal digits to a number, most significant first. -/
def decDigitsToNat : List Char → Nat → Nat
  | [], acc => acc
  | c :: t, acc => decDigitsToNat t (acc * 10 + (c.toNat - 48))

/-- Parse of a string consisting of an optional minus sign and decimal
digits; `none` for anything else. -/
def parseDecIntChars : List Char → Option Int
  | [] => none
  | c :: t =>
    if c == Char.ofNat 45 then
      if !t.isEmpty && t.all (fun d => d.isDigit) then
        some (-(decDigitsToNat t 0 : Int))
      else none
    else if (c :: t).all (fun d => d.isDigit) then
      some ((decDigitsToNat (c :: t) 0 : Int))
    else none

/-- Bit length of a natural number (fuel-based so that the kernel can
evaluate it; the fuel of 80 covers every value below `2 ^ 80`, far above the
`10 ^ 21` bound past which the rendering is exponential). -/
def bitlenAux : Nat → Nat → Nat
  | 0, _ => 0
  | fuel + 1, n => if n = 0 then 0 else bitlenAux fuel (n / 2) + 1

/-- IEEE-754 binary64 rounding (round to nearest, ties to even) of a
non-negative integer, as performed by the JavaScript `ToNumber` coercion
`+key`: values of at most 53 bits are exact; a longer value is rounded to a
53-bit significand times a power of two. -/
def fl64round (n : Nat) : Nat :=
  let len := bitlenAux 80 n
  if len ≤ 53 then n
  else
    let k := len - 53
    let p := 2 ^ k
    let q := n / p
    let r := n % p
    let half := p / 2
    let q' :=
      if half < r then q + 1
      else if r < half then q
      else if q % 2 = 0 then q else q + 1
    q' * p

/-- Number of decimal digits (fuel-based; 24 covers everything below
`10 ^ 21` and the candidates built around it). -/
def digitCountAux : Nat → Nat → Nat
  | 0, _ => 0
  | fuel + 1, n => if n < 10 then 1 else digitCountAux fuel (n / 10) + 1

/-- Number of decimal digits of a natural number. -/
def digitCount (n : Nat) : Nat := digitCountAux 24 n

/-- One step of the ECMAScript `Number::toString` digit search for an
integer-valued float `v` with `d` decimal digits: for each significand
length `k` from 1 up, the two multiples of `10 ^ (d - k)` adjacent to `v`
are the only decimals with `k` significant digits that can round to `v`; the
first `k` admitting one yields the printed value — the closer of the two,
ties broken towards an even significand.  `k = d` always succeeds with `v`
itself, so the fuel only needs to exceed `d`. -/
def chosenRenderAux : Nat → Nat → Nat → Nat → Nat
  | 0, _, v, _ => v
  | fuel + 1, k, v, d =>
      if d ≤ k then v
      else
        let p := 10 ^ (d - k)
        let s1 := v / p
        let c1 := s1 * p
        let c2 := c1 + p
        let r1 := fl64round c1 == v
        let r2 := fl64round c2 == v
        if r1 && r2 then
          let d1 := v - c1
          let d2 := c2 - v
          if d1 < d2 then c1
          else if d2 < d1 then c2
          else if s1 % 2 = 0 then c1 else c2
        else if r1 then c1
        else if r2 then c2
        else chosenRenderAux fuel (k + 1) v d

/-- Value whose decimal digits `Number::toString` prints for the
integer-valued float `v` (valid for `v < 10 ^ 21`, where the rendering is
positional): the decimal with the fewest significant digits that rounds back
to `v`, closest-then-even among candidates. -/
def chosenRender (v : Nat) : Nat := chosenRenderAux 24 1 v (digitCount v)

/-- Does `` `${x}` `` equal the exact decimal digits of the non-negative
integer `n`, where `x` is the float64 `ToNumber` image of those digits?
False at and beyond `10 ^ 21`, where the rendering switches to exponential
notation (or reaches `Infinity`) and can never equal a digit string;
otherwise the digits must survive the float64 round trip: the shortest
decimal that rounds back to `fl64round n` must be `n` itself. -/
def jsNumberDigitsEqual (n : Nat) : Bool :=
  if n = 0 then true
  else if 10 ^ 21 ≤ n then false
  else
    let v := fl64round n
    if 10 ^ 21 ≤ v then false
    else chosenRender v == n

/-- Embedding of the test `` `${+key}` === key `` (src/index.js line 352) on
its integer fragment: the key must be the canonical signed decimal rendering
of an integer, and its magnitude's digits must survive the float64 round
trip of `+key` followed by `Number::toString` (the sign distributes over the
rendering).  In particular all-digit keys of value `2 ^ 53` and above are
accepted only when they are the shortest round-trip rendering of their
float64 image, exactly as in JavaScript.  (JavaScript additionally accepts
canonical float, `Infinity` and `NaN` strings; the claims under study only
concern integer keys, where the two tests agree.) -/
def numericKeyCanonical (key : String) : Bool :=
  match parseDecIntChars key.data with
  | some n => (toString n).data == key.data && jsNumberDigitsEqual n.natAbs
  | none => false

/-- Embedding of the computed-key formatting (src/index.js lines 349-361):
canonical integer keys are emitted bare unless an opening quote was already
typed; other keys are `strEscape`d, dropping the opening quote when the user
already typed one; the closing bracket is appended. -/
def formatComputedKey (leadingQuote : Bool) (key : String) : String :=
  (if !leadingQuote && numericKeyCanonical key then key
   else
     let r := strEscape key
     if leadingQuote then jsSliceFrom r 1 else r) ++ "]"

/-! ## JavaScript value coercions for the completion filter -/

/-- Truthiness of a possible `filter` value (`if (filter)`). -/
def litTruthy : LitVal → Bool
  | LitVal.str s => !s.isEmpty
  | LitVal.num n => n != 0
  | LitVal.bool b => b
  | LitVal.nullLit => false

/-- String coercion applied by `k.startsWith(filter)` to a non-string filter. -/
def litToString : LitVal → String
  | LitVal.str s => s
  | LitVal.num n => toString n
  | LitVal.bool b => if b then "true" else "false"
  | LitVal.nullLit => "null"

/-- Value of `filter.length` as used by `k.slice(filter.length)`: the length
for strings, and `0` for other values (their `.length` is `undefined`, and
`slice(undefined)` slices from 0). -/
def litLengthForSlice : LitVal → Nat
  | LitVal.str s => s.data.length
  | _ => 0

/-- Test `keys.includes(filter)` (SameValueZero): only a string filter can
match a list of property-name strings. -/
def keysIncludesFilter (keys : List String) : Option LitVal → Bool
  | some (LitVal.str s) => keys.contains s
  | _ => false

/-- Final filtering step of `onAutocomplete` (src/index.js lines 369-371):
keep the candidates starting with the filter, each with the filter's length
sliced off the front. -/
def applyFilter (keys : List String) (f : LitVal) : List String :=
  (keys.filter (fun k => jsStartsWith k (litToString f))).map
    (fun k => jsSliceFrom k (litLengthForSlice f))

/-- Tail of `onAutocomplete` (src/index.js lines 367-374) once `keys` is a
real list: filter when the filter value is truthy, otherwise return the
candidates as they are. -/
def finalKeys (keys : List String) (filter : Option LitVal) : CompletionOutcome :=
  match filter with
  | some f => if litTruthy f then CompletionOutcome.list (applyFilter keys f)
              else CompletionOutcome.list keys
  | none => CompletionOutcome.list keys

/-! ## Callee-signature resolution (call-expression completions) -/

/-- Extraction of the `params` variable by the `switch (expr.type)` on a
parsed description (src/index.js lines 227-250): a class contributes its
constructor's parameters, an object literal its first property value's
parameters, a function or arrow function its own; anything else leaves
`params` undefined. -/
def extractParams : DescExpr → Option (List Pattern)
  | DescExpr.classExpr none => none
  | DescExpr.classExpr (some body) =>
      match body.find? (fun m => m.kind == "constructor") with
      | some c => some c.valueParams
      | none => none
  | DescExpr.objectExpr props =>
      match props with
      | [] => none
      | p :: _ =>
          match p.value with
          | none => none
          | some v => v.params
  | DescExpr.funcExpr params => some params
  | DescExpr.arrowFuncExpr params => some params
  | DescExpr.otherExpr => none

/-- Two-stage description parse (src/index.js lines 213-224): first as a
parenthesized function/arrow/class expression, then as a method shorthand
inside an object literal; the result is the first statement's expression
when one exists. -/
def tryParseDesc (o : Oracle) (description : String) : Option DescExpr :=
  match o.acornParse (jsParenWrap description) with
  | some inner => inner
  | none =>
      match o.acornParse ("(\x7b" ++ description ++ "\x7d)") with
      | some inner => inner
      | none => none

/-- Description-driven tail of the call-expression branch (src/index.js
lines 202-299), entered after the cache either missed or produced no
suggestion.  A `none` outcome means the branch fell through (control then
reaches the final `if (keys)` with `keys` undefined, i.e. `oneLineEval`); a
`some CompletionOutcome.error` marks the places where the source would throw
(absent loose-parse function name, missing `NativeFunctions` entry). -/
def handleCallDescription (o : Oracle) (st : REPLState) (buffer : String)
    (callee : CalleeInfo) (numArgs : Nat) (description : String)
    (objectId : Option String) : Option CompletionOutcome × REPLState :=
  if jsIncludes description "[native code]" then
    match o.parseDammitFnName description with
    | none => (some CompletionOutcome.error, st)
    | some name =>
        match o.nativeGlobalThis name with
        | some entry0 =>
            let st' := { st with
              functionCompletionCache := cacheSet st.functionCompletionCache objectId entry0 }
            match finishParams numArgs buffer entry0 with
            | some c => (some (CompletionOutcome.text c), st')
            | none => (none, st')
        | none => (some CompletionOutcome.error, st)
  else if description.data.length < 10000 then
    match tryParseDesc o description with
    | none => (none, st)
    | some descExpr =>
        match extractParams descExpr with
        | none => (none, st)
        | some params =>
            let tokens := paramNameList params
            let st' := { st with
              functionCompletionCache := cacheSet st.functionCompletionCache objectId tokens }
            match finishParams numArgs buffer tokens with
            | some c => (some (CompletionOutcome.text c), st')
            | none => (none, st')
  else if callee.isMember then
    let receiverSrc := jsSlice buffer callee.objStart callee.objEnd
    let r2 := performEval o receiverSrc false true
    match r2.exceptionDetails with
    | some _ => (none, st)
    | none =>
        let receiverOpt :=
          if r2.result.type == "function" then o.parseDammitFnName r2.result.description
          else r2.result.className
        match receiverOpt with
        | none => (some CompletionOutcome.error, st)
        | some receiver =>
            match o.parseDammitFnName description with
            | none => (some CompletionOutcome.error, st)
            | some name =>
                match o.nativeLookup receiver name with
                | none => (some CompletionOutcome.error, st)
                | some entry0 =>
                    let st' := { st with
                      functionCompletionCache :=
                        cacheSet st.functionCompletionCache r2.result.objectId entry0 }
                    match finishParams numArgs buffer entry0 with
                    | some c => (some (CompletionOutcome.text c), st')
                    | none => (none, st')
  else (none, st)

/-- Call-expression branch of `onAutocomplete` (src/index.js lines 172-300):
best-effort evaluation of the callee text; on success, first the signature
cache and then the description drive the suggestion.  A `none` outcome means
the branch fell through. -/
def handleCallExpr (o : Oracle) (st : REPLState) (buffer : String)
    (callee : CalleeInfo) (numArgs : Nat) : Option CompletionOutcome × REPLState :=
  let calleeSrc := jsSlice buffer callee.calleeStart callee.calleeEnd
  let evaluateResult := performEval o calleeSrc false true
  match evaluateResult.exceptionDetails with
  | some _ => (none, st)
  | none =>
      let description := evaluateResult.result.description
      let objectId := evaluateResult.result.objectId
      match cacheGet st.functionCompletionCache objectId with
      | some hit =>
          match finishParams numArgs buffer hit with
          | some c => (some (CompletionOutcome.text c), st)
          | none => handleCallDescription o st buffer callee numArgs description objectId
      | none => handleCallDescription o st buffer callee numArgs description objectId

/-! ## Member-access completions -/

/-- Intermediate result of the member-expression branch: either a final
outcome, or the candidate keys and filter handed to the closing
`if (keys)` step. -/
inductive MemberStep where
  | done (outcome : CompletionOutcome)
  | cont (keys : List String) (filter : Option LitVal)

/-- Property-enumeration tail of the member branch (src/index.js lines
327-365): enumerate non-symbol properties, own before inherited, each group
in protocol order; an exact filter match degrades to an inline preview;
computed access formats each key for brackets, dot access keeps only
identifier-shaped names.  `getProperties` answering with an error (e.g. a
missing `objectId`) rejects the whole call. -/
def memberProps (o : Oracle) (st : REPLState) (buffer : String)
    (result : RemoteObject) (filter : Option LitVal) (computed : Bool)
    (leadingQuote : Bool) : MemberStep × REPLState :=
  match o.getProperties result.objectId with
  | none => (MemberStep.done CompletionOutcome.error, st)
  | some props =>
      let nonSymbol := props.filter (fun p => !p.symbol)
      let own := (nonSymbol.filter (fun p => p.isOwn)).map (fun p => p.name)
      let inherited := (nonSymbol.filter (fun p => !p.isOwn)).map (fun p => p.name)
      let keys := own ++ inherited
      if keysIncludesFilter keys filter then
        let r := oneLineEval o st buffer
        (MemberStep.done (olToOutcome r.1), r.2)
      else if computed then
        (MemberStep.cont (keys.map (formatComputedKey leadingQuote)) filter, st)
      else
        (MemberStep.cont (keys.filter o.isIdentifier) filter, st)

/-- Member-expression branch of `onAutocomplete` (src/index.js lines
301-365): derive the filter and leading-quote flag from the property node,
best-effort evaluate the receiver text, box a primitive receiver with
`Object(...)`, then enumerate properties. -/
def handleMember (o : Oracle) (st : REPLState) (buffer : String)
    (objStart objEnd : Nat) (computed : Bool) (property : LooseProp) :
    MemberStep × REPLState :=
  let expr := jsSlice buffer objStart objEnd
  let filter : Option LitVal :=
    match computed, property with
    | true, LooseProp.literal v _ => some v
    | false, LooseProp.identifier name =>
        if name == "✖" then none else some (LitVal.str name)
    | _, _ => none
  let leadingQuote : Bool :=
    match computed, property with
    | true, LooseProp.literal _ raw => jsStartsWith raw "\x27"
    | _, _ => false
  let er1 := performEval o expr false true
  match er1.exceptionDetails with
  | some _ => (MemberStep.done CompletionOutcome.undef, st)
  | none =>
      if er1.result.type != "object" && er1.result.type != "undefined" &&
         er1.result.subtype != some "null" then
        let er2 := performEval o
          ("Object(" ++ wrapObjectLiteralExpressionIfNeeded o.parses expr ++ ")") false true
        match er2.exceptionDetails with
        | some _ => (MemberStep.done CompletionOutcome.undef, st)
        | none => memberProps o st buffer er2.result filter computed leadingQuote
      else memberProps o st buffer er1.result filter computed leadingQuote

/-! ## Completion resolver (`onAutocomplete`) -/

/-- Embedding of `onAutocomplete` (src/index.js lines 150-377).  An empty
buffer lists the global names; otherwise the loose parse of the buffer
drives one of the identifier, call-expression or member-expression branches;
whatever reaches the end with a `keys` list is filtered, and everything else
degrades to the inline preview `oneLineEval`. -/
def onAutocomplete (o : Oracle) (st : REPLState) (buffer : String) :
    CompletionOutcome × REPLState :=
  if buffer.data.length = 0 then (CompletionOutcome.list (collectGlobalNames o), st)
  else
    match o.parseDammit buffer with
    | none => (CompletionOutcome.error, st)
    | some LooseStmt.otherStmt => (CompletionOutcome.undef, st)
    | some (LooseStmt.exprStmt expression) =>
        match expression with
        | LooseExpr.ident name =>
            let keys := collectGlobalNames o
            if keys.contains name then
              let r := oneLineEval o st buffer
              (olToOutcome r.1, r.2)
            else (finalKeys keys (some (LitVal.str name)), st)
        | LooseExpr.call callee numArgs =>
            if !(jsEndsWith (jsTrim buffer) ")") then
              let r := handleCallExpr o st buffer callee numArgs
              match r.1 with
              | some outcome => (outcome, r.2)
              | none =>
                  let r2 := oneLineEval o r.2 buffer
                  (olToOutcome r2.1, r2.2)
            else
              let r := oneLineEval o st buffer
              (olToOutcome r.1, r.2)
        | LooseExpr.member objStart objEnd computed property =>
            let r := handleMember o st buffer objStart objEnd computed property
            match r.1 with
            | MemberStep.done outcome => (outcome, r.2)
            | MemberStep.cont keys filter => (finalKeys keys filter, r.2)
        | LooseExpr.otherExpr =>
            let r := oneLineEval o st buffer
            (olToOutcome r.1, r.2)

/-! ## Concrete fixtures for closed theorems -/

/-- Fresh session state (as after the bootstrap in src/index.js). -/
def initState : REPLState :=
  { last := none, lastError := none, inspectTarget := none, functionCompletionCache := [] }

/-- Remote description of `undefined`. -/
def undefinedRemote : RemoteObject :=
  { type := "undefined", subtype := none, className := none,
    description := "undefined", objectId := none }

/-- Remote description of a thrown incomplete-input error. -/
def unexpectedEndRemote : RemoteObject :=
  { type := "object", subtype := some "error", className := none,
    description := "Unexpected end of input", objectId := some "err1" }

/-- Remote description of a plain object handle. -/
def objRemote : RemoteObject :=
  { type := "object", subtype := none, className := some "Object",
    description := "Object", objectId := some "obj1" }

/-- Inert environment: evaluations succeed with `undefined`, parses accept,
lookups miss.  Concrete theorems override the fields they need. -/
def baseOracle : Oracle :=
  { evaluate := fun _ => { result := undefinedRemote, exceptionDetails := none }
    getProperties := fun _ => none
    globalLexicalScopeNames := none
    ownGlobalNames := []
    parses := fun _ => true
    parseDammit := fun _ => none
    parseDammitFnName := fun _ => none
    acornParse := fun _ => none
    nativeGlobalThis := fun _ => none
    nativeLookup := fun _ _ => none
    isRecoverableError := fun _ => false
    processTopLevelAwait := fun _ => none
    isIdentifier := fun _ => true
    inspectLocal := fun r => r.description
    inspectRemoteTarget := fun r => r.description
    inspectPrim := fun r => r.description
    mainContextId := 1 }

/-- Environment where every evaluation throws an incomplete-input error that
the recoverable-error predicate accepts. -/
def recoverableOracle : Oracle :=
  { baseOracle with
    evaluate := fun _ =>
      { result := undefinedRemote,
        exceptionDetails := some { exception := unexpectedEndRemote } }
    isRecoverableError := fun _ => true }

/-- Environment whose only global name is `Math` and whose loose parser
reads the buffer `Ma` as a bare identifier. -/
def mathOracle : Oracle :=
  { baseOracle with
    globalLexicalScopeNames := some []
    ownGlobalNames := ["Math"]
    parseDammit := fun s =>
      if s == "Ma" then some (LooseStmt.exprStmt (LooseExpr.ident "Ma")) else none }

/-- Environment for a bracket-access completion: the receiver `a` is an
object whose only property is named `42`, and the buffer `a['4` parses as a
computed member access with string-literal property `4` written with an
opening quote. -/
def bracketOracle : Oracle :=
  { baseOracle with
    evaluate := fun req =>
      if req.expression == "a" then { result := objRemote, exceptionDetails := none }
      else { result := undefinedRemote, exceptionDetails := none }
    getProperties := fun oid =>
      if oid == some "obj1" then some [{ name := "42", isOwn := true, symbol := false }]
      else none
    parseDammit := fun s =>
      if s == "a[\x274" then
        some (LooseStmt.exprStmt
          (LooseExpr.member 0 1 true (LooseProp.literal (LitVal.str "4") "\x274")))
      else none }

/-! ## Claim C3 -/

/-- Claim C3: every evaluation request built by `performEval` sets
`generatePreview` to `true`; a best-effort request additionally sets
`silent`, `throwOnSideEffect` and the 500 ms timeout, while a direct-mode
request sets none of them. -/
theorem performEval_request_flags (o : Oracle) (code : String) (awaitPromise : Bool) :
    (performEvalRequest o code awaitPromise true).generatePreview = true ∧
    (performEvalRequest o code awaitPromise false).generatePreview = true ∧
    (performEvalRequest o code awaitPromise true).silent = true ∧
    (performEvalRequest o code awaitPromise true).throwOnSideEffect = true ∧
    (performEvalRequest o code awaitPromise true).timeout = some 500 ∧
    (performEvalRequest o code awaitPromise false).silent = false ∧
    (performEvalRequest o code awaitPromise false).throwOnSideEffect = false ∧
    (performEvalRequest o code awaitPromise false).timeout = none :=
  ⟨rfl, rfl, rfl, rfl, rfl, rfl, rfl, rfl⟩

/-! ## Claim C5 -/

/-- Claim C5 counterexample: the text consisting of a space and then a brace
pair does not begin with a brace, so the claim requires it to be returned
unchanged; yet the code (here with a parser accepting both probe texts,
exactly as the host parser does on them) parenthesizes it — the source's
shape test tolerates surrounding whitespace. -/
theorem wrapObjectLiteral_shape_counterexample :
    wrapObjectLiteralExpressionIfNeeded (fun _ => true) " \x7b\x7d" = "( \x7b\x7d)" ∧
    jsStartsWith " \x7b\x7d" "\x7b" = false ∧
    ((" \x7b\x7d" : String) == "( \x7b\x7d)") = false :=
  ⟨by decide, by decide, by decide⟩

/-- Claim C5 (amended): with the brace shape read whitespace-tolerantly, as
the code's regexes do — beginning with a brace after optional whitespace and
ending with a brace before optional whitespace — the claim holds: such a
text is parenthesized exactly when both probe parses succeed, and falls back
to the original text when either fails; any text without that shape is
returned unchanged. -/
theorem wrapObjectLiteral_amended (parses : String → Bool) (code : String) :
    (braceShape code = false → wrapObjectLiteralExpressionIfNeeded parses code = code) ∧
    (braceShape code = true → parses (jsReturnWrap code) = true →
      parses (jsParenWrap code) = true →
      wrapObjectLiteralExpressionIfNeeded parses code = jsParenWrap code) ∧
    (braceShape code = true → parses (jsReturnWrap code) = false →
      wrapObjectLiteralExpressionIfNeeded parses code = code) ∧
    (braceShape code = true → parses (jsParenWrap code) = false →
      wrapObjectLiteralExpressionIfNeeded parses code = code) := by
  unfold braceShape wrapObjectLiteralExpressionIfNeeded
  refine ⟨fun h => ?_, fun h h1 h2 => ?_, fun h h1 => ?_, fun h h2 => ?_⟩
  · simp [h]
  · simp [h, h1, h2]
  · simp [h, h1]
  · cases h1 : parses (jsReturnWrap code) <;> simp [h, h1, h2]

/-- Claim C5 amended witness: a brace pair with an accepting parser is
parenthesized. -/
theorem wrapObjectLiteral_amended_witness :
    wrapObjectLiteralExpressionIfNeeded (fun _ => true) "\x7b\x7d" = jsParenWrap "\x7b\x7d" :=
  (wrapObjectLiteral_amended (fun _ => true) "\x7b\x7d").2.1 (by decide) rfl rfl

/-! ## Claim C6 -/

/-- Unfolding of the list companion of `paramName` into `List.map`. -/
theorem paramNameList_eq_map (ps : List Pattern) : paramNameList ps = ps.map paramName := by
  induction ps with
  | nil => rfl
  | cons p t ih => simp [paramNameList, ih]

/-- Claim C6: the parameter-token extractor maps a plain identifier to
itself, a default-valued parameter to its token prefixed with the
optionality marker, a rest parameter to its token behind the ellipsis, a
destructured object pattern to a brace-grouped list of its field tokens, a
destructured array pattern to a bracket-grouped list of its element tokens,
and an unrecognized pattern to the placeholder token; in particular the
parameters of `function f(a, b = 1, ...rest)` yield the tokens `a`, `?b`,
`...rest`. -/
theorem paramName_spec :
    (∀ name, paramName (Pattern.identifier name) = name) ∧
    (∀ p, paramName (Pattern.assignment p) = "?" ++ paramName p) ∧
    (∀ p, paramName (Pattern.restElement p) = "..." ++ paramName p) ∧
    (∀ ps, paramName (Pattern.objectPattern ps) =
      "\x7b " ++ String.intercalate ", " (ps.map paramName) ++ " \x7d") ∧
    (∀ ps, paramName (Pattern.arrayPattern ps) =
      "[ " ++ String.intercalate ", " (ps.map paramName) ++ " ]") ∧
    paramName Pattern.otherPattern = "?" ∧
    paramNameList
      [Pattern.identifier "a", Pattern.assignment (Pattern.identifier "b"),
       Pattern.restElement (Pattern.identifier "rest")] = ["a", "?b", "...rest"] := by
  refine ⟨fun _ => rfl, fun _ => rfl, fun _ => rfl, fun ps => ?_, fun ps => ?_, rfl, rfl⟩ <;>
    simp [paramName, paramNameList_eq_map]

/-! ## Claim C8 -/

/-- Claim C8 counterexample: one argument already typed and a buffer ending
exactly at a comma (no whitespace after it) — the buffer does not end in
comma-plus-whitespace, so the claim requires the comma-and-space separator,
but the code emits only a single leading space. -/
theorem finishParams_comma_counterexample :
    finishParams 1 "f(1," ["a", "b"] = some " b" ∧ ((" b" : String) == ", b") = false :=
  ⟨by decide, by decide⟩

/-- Claim C8 (amended): with at least one argument already typed, the
remaining tokens joined by a comma-and-space are prefixed with a comma and a
single space, except when the trimmed buffer ends in a comma: then the
tokens are emitted bare when whitespace follows that comma, and with only a
single leading space (no comma) when the buffer ends exactly at the
comma. -/
theorem finishParams_amended (numArgs : Nat) (buffer : String) (params : List String)
    (h0 : 0 < numArgs) (hne : numArgs ≠ params.length) :
    (jsEndsWith (jsTrim buffer) "," = false →
      finishParams numArgs buffer params =
        some (", " ++ String.intercalate ", " (params.drop numArgs))) ∧
    (jsEndsWith (jsTrim buffer) "," = true →
      0 < (buffer.data.length : Int) - (jsLastIndexOf buffer (Char.ofNat 44) + 1) →
      finishParams numArgs buffer params =
        some (String.intercalate ", " (params.drop numArgs))) ∧
    (jsEndsWith (jsTrim buffer) "," = true →
      (buffer.data.length : Int) - (jsLastIndexOf buffer (Char.ofNat 44) + 1) ≤ 0 →
      finishParams numArgs buffer params =
        some (" " ++ String.intercalate ", " (params.drop numArgs))) := by
  unfold finishParams
  have hlen : buffer.length = buffer.data.length := rfl
  refine ⟨fun h => ?_, fun h hs => ?_, fun h hs => ?_⟩
  · simp [hne, h0, h]
  · simp [hne, h0, h, hs]
    intro hc
    rw [hlen] at hc
    exact absurd hc (by omega)
  · have hns : ¬ (0 : Int) < (buffer.data.length : Int) - (jsLastIndexOf buffer (Char.ofNat 44) + 1) := by
      omega
    simp [hne, h0, h, hns]
    intro hc
    rw [hlen] at hc
    exact absurd hc (by omega)

/-- Claim C8 amended witness: one argument typed, buffer not ending in a
comma — the comma-and-space separator is prefixed. -/
theorem finishParams_amended_witness :
    finishParams 1 "f(1" ["a", "b"] =
      some (", " ++ String.intercalate ", " (["a", "b"].drop 1)) :=
  (finishParams_amended 1 "f(1" ["a", "b"] (by decide) (by decide)).1 (by decide)

/-! ## Claim C10 -/

/-- Claim C10: a submitted line not containing the substring `await` skips
the suspend-rewrite pass entirely; the request `onLine` issues carries the
unrewritten (only object-literal-disambiguated) line text and
`awaitPromise = false`. -/
theorem onLine_no_await_direct (o : Oracle) (line : String)
    (h : jsIncludes line "await" = false) :
    onLineProcess o line = (line, false) ∧
    onLineRequest o line = performEvalRequest o line false false ∧
    (onLineRequest o line).awaitPromise = false ∧
    (onLineRequest o line).expression =
      wrapObjectLiteralExpressionIfNeeded o.parses line := by
  have hp : onLineProcess o line = (line, false) := by
    unfold onLineProcess; simp [h]
  refine ⟨hp, ?_, ?_, ?_⟩ <;> unfold onLineRequest <;> rw [hp] <;> rfl

/-- Claim C10 witness: a concrete await-free line is left unprocessed. -/
theorem onLine_no_await_witness :
    onLineProcess baseOracle "1 + 1" = ("1 + 1", false) :=
  (onLine_no_await_direct baseOracle "1 + 1" (by decide)).1

/-! ## Claim C1 -/

/-- Claim C1: when direct evaluation of the submitted (rewrite-processed)
line throws and the recoverable-error predicate accepts its object-literal
disambiguated text, `onLine` answers with the needs-another-line signal and
leaves the whole session state — in particular the last-value and
last-error slots — untouched. -/
theorem onLine_recoverable_returns_continuation (o : Oracle) (st : REPLState) (line : String)
    (hexc : (o.evaluate (onLineRequest o line)).exceptionDetails.isSome = true)
    (hrec : o.isRecoverableError
      (wrapObjectLiteralExpressionIfNeeded o.parses (onLineProcess o line).1) = true) :
    onLine o st line = (LineOutcome.needsAnotherLine, st) := by
  unfold onLine
  cases hx : (o.evaluate (onLineRequest o line)).exceptionDetails with
  | none => rw [hx] at hexc; simp at hexc
  | some d => simp [hx, hrec]

/-- Claim C1 witness: a concrete throwing, recoverable evaluation of an
open brace. -/
theorem onLine_recoverable_witness :
    onLine recoverableOracle initState "\x7b" = (LineOutcome.needsAnotherLine, initState) :=
  onLine_recoverable_returns_continuation recoverableOracle initState "\x7b" rfl rfl

/-! ## Claim C4 -/

/-- Claim C4: for any candidate list and any non-empty filter prefix, every
string produced by the uniform filtering rule is some candidate that started
with the prefix, with exactly the prefix's length of characters removed from
its front; only such candidates contribute, one output per matching
candidate. -/
theorem applyFilter_spec (keys : List String) (P : String) (hP : P ≠ "") :
    (∀ r ∈ applyFilter keys (LitVal.str P), ∃ k, k ∈ keys ∧
      jsStartsWith k P = true ∧ r = jsSliceFrom k P.data.length) ∧
    (∀ k ∈ keys, jsStartsWith k P = true →
      jsSliceFrom k P.data.length ∈ applyFilter keys (LitVal.str P)) ∧
    (applyFilter keys (LitVal.str P)).length =
      (keys.filter (fun k => jsStartsWith k P)).length := by
  simp only [applyFilter, litToString, litLengthForSlice]
  refine ⟨?_, ?_, ?_⟩
  · intro r hr
    rcases List.mem_map.mp hr with ⟨k, hk, hrk⟩
    rcases List.mem_filter.mp hk with ⟨hkm, hks⟩
    exact ⟨k, hkm, hks, hrk.symm⟩
  · intro k hk hks
    exact List.mem_map.mpr ⟨k, List.mem_filter.mpr ⟨hk, hks⟩, rfl⟩
  · simp

/-- Claim C4 witness: the prefix `Ma` over a concrete candidate list keeps
`Math` and strips the prefix from it. -/
theorem applyFilter_spec_witness :
    jsSliceFrom "Math" "Ma".data.length ∈ applyFilter ["Math", "Map", "Set"] (LitVal.str "Ma") :=
  (applyFilter_spec ["Math", "Map", "Set"] "Ma" (by decide)).2.1 "Math" (by decide) (by decide)

/-! ## Claim C7 -/

/-- Claim C7 counterexample: completing the buffer `a['4` — the user already
typed an opening quote — against an object whose only matching key is the
non-negative integer literal string `42` returns the candidate made of `2`,
a quote and `]`: it carries a quote character, because the unquoted-integer
rendering is skipped whenever a leading quote was typed. -/
theorem bracket_completion_quote_counterexample :
    onAutocomplete bracketOracle initState "a[\x274" =
      (CompletionOutcome.list ["2\x27]"], initState) ∧
    numericKeyCanonical "42" = true ∧
    jsIncludes "2\x27]" "\x27" = true :=
  ⟨rfl, rfl, rfl⟩

/-- Fuel-respecting upper bound for `bitlenAux`: a value below `2 ^ L` has
at most `L` bits. -/
theorem bitlenAux_le (fuel : Nat) :
    ∀ L n, n < 2 ^ L → L ≤ fuel → bitlenAux fuel n ≤ L := by
  induction fuel with
  | zero => intro L n _ _; simp [bitlenAux]
  | succ f ih =>
      intro L n hn hL
      unfold bitlenAux
      split
      · exact Nat.zero_le L
      · rename_i hn0
        have hL1 : 1 ≤ L := by
          rcases Nat.eq_zero_or_pos L with h0 | h1
          · subst h0
            have h20 : (2 : Nat) ^ 0 = 1 := rfl
            omega
          · exact h1
        have hdiv : n / 2 < 2 ^ (L - 1) := by
          have h2 : 2 ^ L = 2 ^ (L - 1) * 2 := by
            rw [← Nat.pow_succ]
            congr 1
            omega
          rw [Nat.div_lt_iff_lt_mul (by norm_num)]
          omega
        have := ih (L - 1) (n / 2) hdiv (by omega)
        omega

/-- A value is below two to its own bit length (fuel sufficient). -/
theorem bitlen_upper (fuel : Nat) :
    ∀ n, n < 2 ^ fuel → n < 2 ^ bitlenAux fuel n := by
  induction fuel with
  | zero =>
      intro n hn
      simpa [bitlenAux] using hn
  | succ f ih =>
      intro n hn
      unfold bitlenAux
      split
      · rename_i h0
        subst h0
        norm_num
      · rename_i hn0
        have hdiv : n / 2 < 2 ^ f := by
          have h2 : 2 ^ (f + 1) = 2 ^ f * 2 := Nat.pow_succ 2 f
          rw [Nat.div_lt_iff_lt_mul (by norm_num)]
          omega
        have hih := ih (n / 2) hdiv
        have h2 : 2 ^ (bitlenAux f (n / 2) + 1) = 2 ^ bitlenAux f (n / 2) * 2 :=
          Nat.pow_succ 2 (bitlenAux f (n / 2))
        omega

/-- A nonzero value is at least two to one less than its bit length. -/
theorem bitlen_lower (fuel : Nat) :
    ∀ n, n ≠ 0 → 2 ^ (bitlenAux fuel n - 1) ≤ n := by
  induction fuel with
  | zero =>
      intro n hn
      have h : bitlenAux 0 n = 0 := rfl
      rw [h]
      norm_num
      omega
  | succ f ih =>
      intro n hn
      unfold bitlenAux
      rw [if_neg hn]
      simp only [Nat.add_sub_cancel]
      by_cases h2 : n / 2 = 0
      · have hb : bitlenAux f (n / 2) = 0 := by
          cases f <;> simp [bitlenAux, h2]
        rw [hb]
        norm_num
        omega
      · have hih := ih (n / 2) h2
        rcases Nat.eq_zero_or_pos (bitlenAux f (n / 2)) with hb | hb
        · rw [hb]
          norm_num
          omega
        · have hsucc : bitlenAux f (n / 2) - 1 + 1 = bitlenAux f (n / 2) := by omega
          have h2p : 2 ^ bitlenAux f (n / 2) = 2 ^ (bitlenAux f (n / 2) - 1) * 2 := by
            conv_lhs => rw [← hsucc]
            exact Nat.pow_succ 2 (bitlenAux f (n / 2) - 1)
          omega

/-- Integers of at most 53 bits are binary64-exact: rounding is the
identity below `2 ^ 53`. -/
theorem fl64round_small (n : Nat) (h : n < 2 ^ 53) : fl64round n = n := by
  unfold fl64round
  have hle : bitlenAux 80 n ≤ 53 := bitlenAux_le 80 53 n h (by norm_num)
  dsimp only
  rw [if_pos hle]

/-- Rounding never brings a value of 54 bits or more below `2 ^ 53`. -/
theorem fl64round_big (c : Nat) (h53 : 2 ^ 53 ≤ c) (h80 : c < 2 ^ 80) :
    2 ^ 53 ≤ fl64round c := by
  unfold fl64round
  dsimp only
  have hc0 : c ≠ 0 := by
    have : 0 < (2 : Nat) ^ 53 := by positivity
    omega
  have hup : c < 2 ^ bitlenAux 80 c := bitlen_upper 80 c h80
  have hge : 54 ≤ bitlenAux 80 c := by
    by_contra hlt
    push_neg at hlt
    have : 2 ^ bitlenAux 80 c ≤ 2 ^ 53 := Nat.pow_le_pow_right (by norm_num) (by omega)
    omega
  rw [if_neg (by omega)]
  have hlow : 2 ^ (bitlenAux 80 c - 1) ≤ c := bitlen_lower 80 c hc0
  have hq : 2 ^ 52 ≤ c / 2 ^ (bitlenAux 80 c - 53) := by
    rw [Nat.le_div_iff_mul_le (by positivity)]
    calc 2 ^ 52 * 2 ^ (bitlenAux 80 c - 53)
        = 2 ^ (52 + (bitlenAux 80 c - 53)) := (Nat.pow_add 2 52 _).symm
      _ = 2 ^ (bitlenAux 80 c - 1) := by congr 1; omega
      _ ≤ c := hlow
  have key : ∀ q'', c / 2 ^ (bitlenAux 80 c - 53) ≤ q'' →
      2 ^ 53 ≤ q'' * 2 ^ (bitlenAux 80 c - 53) := by
    intro q'' hqq
    have h1 : 2 ^ 52 * 2 ^ (bitlenAux 80 c - 53) ≤ q'' * 2 ^ (bitlenAux 80 c - 53) :=
      Nat.mul_le_mul_right _ (le_trans hq hqq)
    have h2 : 2 ^ 52 * 2 ^ (bitlenAux 80 c - 53) = 2 ^ (52 + (bitlenAux 80 c - 53)) :=
      (Nat.pow_add 2 52 _).symm
    have h3 : 2 ^ 53 ≤ 2 ^ (52 + (bitlenAux 80 c - 53)) :=
      Nat.pow_le_pow_right (by norm_num) (by omega)
    omega
  apply key
  split_ifs <;> omega

/-- The digit counter never exceeds its fuel. -/
theorem digitCountAux_le_fuel (fuel : Nat) : ∀ n, digitCountAux fuel n ≤ fuel := by
  induction fuel with
  | zero => intro n; simp [digitCountAux]
  | succ f ih =>
      intro n
      unfold digitCountAux
      split
      · omega
      · have := ih (n / 10)
        omega

/-- Below `2 ^ 53` the digit search returns the value itself: every decimal
with fewer significant digits is also below `2 ^ 53`, hence binary64-exact
and distinct from `v`, so no shorter rendering can round back to `v`. -/
theorem chosenRenderAux_small (fuel : Nat) :
    ∀ k v d, v < 2 ^ 53 → d ≤ 24 → chosenRenderAux fuel k v d = v := by
  induction fuel with
  | zero => intro k v d _ _; rfl
  | succ f ih =>
      intro k v d hv hd
      unfold chosenRenderAux
      split
      · rfl
      · rename_i hdk
        dsimp only
        have hAp : 0 < 10 ^ (d - k) := Nat.pos_pow_of_pos _ (by norm_num)
        by_cases hc1 : v / 10 ^ (d - k) * 10 ^ (d - k) = v
        · rw [hc1, fl64round_small v hv, beq_self_eq_true]
          cases hr2 : (fl64round (v + 10 ^ (d - k)) == v) with
          | true =>
              have h0 : v - v < v + 10 ^ (d - k) - v := by omega
              simp [h0]
          | false => simp
        · have hc1lt : v / 10 ^ (d - k) * 10 ^ (d - k) ≤ v := Nat.div_mul_le_self v _
          have hc2gt : v < v / 10 ^ (d - k) * 10 ^ (d - k) + 10 ^ (d - k) := by
            have hdm := Nat.div_add_mod v (10 ^ (d - k))
            have hml : v % 10 ^ (d - k) < 10 ^ (d - k) := Nat.mod_lt _ hAp
            have hcm : v / 10 ^ (d - k) * 10 ^ (d - k) = 10 ^ (d - k) * (v / 10 ^ (d - k)) :=
              Nat.mul_comm _ _
            omega
          have hr1 : (fl64round (v / 10 ^ (d - k) * 10 ^ (d - k)) == v) = false := by
            rw [fl64round_small _ (lt_of_le_of_lt hc1lt hv)]
            simp only [beq_eq_false_iff_ne, ne_eq]
            exact hc1
          have hr2 : (fl64round (v / 10 ^ (d - k) * 10 ^ (d - k) + 10 ^ (d - k)) == v) = false := by
            by_cases hsz : v / 10 ^ (d - k) * 10 ^ (d - k) + 10 ^ (d - k) < 2 ^ 53
            · rw [fl64round_small _ hsz]
              simp only [beq_eq_false_iff_ne, ne_eq]
              omega
            · push_neg at hsz
              have hub : v / 10 ^ (d - k) * 10 ^ (d - k) + 10 ^ (d - k) < 2 ^ 80 := by
                have hA24 : 10 ^ (d - k) ≤ 10 ^ 24 :=
                  Nat.pow_le_pow_right (by norm_num) (by omega)
                have hbig : (2 : Nat) ^ 53 + 10 ^ 24 < 2 ^ 80 := by norm_num
                omega
              have hbg := fl64round_big _ hsz hub
              simp only [beq_eq_false_iff_ne, ne_eq]
              omega
          rw [hr1, hr2]
          simp only [Bool.and_false]
          rw [if_neg (by simp), if_neg (by simp), if_neg (by simp)]
          exact ih (k + 1) v d hv hd

/-- Below `2 ^ 53` the digits of a non-negative integer survive the float64
round trip: `ToNumber` is exact and `Number::toString` prints them back. -/
theorem jsNumberDigitsEqual_small (n : Nat) (h : n < 2 ^ 53) :
    jsNumberDigitsEqual n = true := by
  unfold jsNumberDigitsEqual
  by_cases h0 : n = 0
  · simp [h0]
  · rw [if_neg h0]
    have h21 : ¬ 10 ^ 21 ≤ n := by
      have : (2 : Nat) ^ 53 < 10 ^ 21 := by norm_num
      omega
    rw [if_neg h21]
    dsimp only
    rw [fl64round_small n h, if_neg h21]
    have hd24 : digitCount n ≤ 24 := digitCountAux_le_fuel 24 n
    rw [show chosenRender n = n from chosenRenderAux_small 24 1 n (digitCount n) h hd24]
    exact beq_self_eq_true n

/-- Claim C7 (amended): a bracket-access candidate for a non-negative
integer literal key whose value is below `2 ^ 53` (so that the float64
coercion of the source test `` \`${+key}\` === key `` is exact and prints
the digits back) contains no leading and no trailing quote character,
provided the user has not already typed an opening quote: the source test
accepts the key and it is rendered bare, followed only by the closing
bracket.  (With an opening quote already typed, or for digit strings that do
not survive the float64 round trip, the candidate is quoted; see the
counterexample.) -/
theorem bracket_completion_no_quote_amended (key : String) (n : Nat)
    (hd : key.data.all (fun c => c.isDigit) = true)
    (hp : parseDecIntChars key.data = some (n : Int))
    (hcanon : ((toString (n : Int)).data == key.data) = true)
    (hbound : n < 2 ^ 53) :
    numericKeyCanonical key = true ∧
    formatComputedKey false key = key ++ "]" ∧
    (formatComputedKey false key).data.head? ≠ some (Char.ofNat 39) ∧
    (formatComputedKey false key).data.getLast? ≠ some (Char.ofNat 39) := by
  have hnum : numericKeyCanonical key = true := by
    have hstep : numericKeyCanonical key =
        ((toString (n : Int)).data == key.data && jsNumberDigitsEqual (Int.natAbs (n : Int))) := by
      unfold numericKeyCanonical
      rw [hp]
    rw [hstep, Int.natAbs_ofNat, hcanon, jsNumberDigitsEqual_small n hbound]
    rfl
  have hf : formatComputedKey false key = key ++ "]" := by
    simp [formatComputedKey, hnum]
  have hdata : (key ++ "]").data = key.data ++ [Char.ofNat 93] := rfl
  refine ⟨hnum, hf, ?_, ?_⟩ <;> rw [hf, hdata]
  · cases hk : key.data with
    | nil => simp
    | cons d t =>
        simp only [List.cons_append, List.head?_cons]
        intro he
        have hdq : d = Char.ofNat 39 := by
          injection he
        have hdig : d.isDigit = true := by
          rw [hk] at hd
          simp only [List.all_cons, Bool.and_eq_true] at hd
          exact hd.1
        rw [hdq] at hdig
        exact absurd hdig (by decide)
  · rw [List.getLast?_concat]
    intro he
    have : Char.ofNat 93 = Char.ofNat 39 := by injection he
    exact absurd this (by decide)

/-- Claim C7 amended witness: the key `42` (value below `2 ^ 53`) with no
opening quote typed. -/
theorem bracket_completion_no_quote_witness :
    formatComputedKey false "42" = "42" ++ "]" :=
  (bracket_completion_no_quote_amended "42" 42 (by decide) (by decide) (by decide)
    (by decide)).2.1

/-! ## Claim C9 -/

/-- Claim C9 counterexample: with an empty input buffer, even in a context
whose only global name starting with `Ma` is `Math`, the completion result
is the plain list of global names — it contains `Math` itself and not the
suffix `th`: no prefix filtering happens for an empty buffer. -/
theorem empty_buffer_counterexample :
    onAutocomplete mathOracle initState "" =
      (CompletionOutcome.list ["Math"], initState) ∧
    List.contains ["Math"] "th" = false ∧
    jsStartsWith "Math" "Ma" = true :=
  ⟨rfl, rfl, rfl⟩

/-- Claim C9 (amended): for the buffer `Ma` (rather than an empty buffer),
parsed as a bare identifier, in a context where the only global name
starting with `Ma` is `Math`, the completion result is a list containing
the suffix `th` and nothing but that suffix. -/
theorem maBuffer_completion_amended (o : Oracle) (st : REPLState)
    (hparse : o.parseDammit "Ma" = some (LooseStmt.exprStmt (LooseExpr.ident "Ma")))
    (honly : ∀ g ∈ collectGlobalNames o, jsStartsWith g "Ma" = true → g = "Math")
    (hmem : "Math" ∈ collectGlobalNames o) :
    ∃ l, onAutocomplete o st "Ma" = (CompletionOutcome.list l, st) ∧
      "th" ∈ l ∧ ∀ x ∈ l, x = "th" := by
  have hnc : (collectGlobalNames o).contains "Ma" = false := by
    cases hcc : (collectGlobalNames o).contains "Ma" with
    | false => rfl
    | true =>
        have hmm : "Ma" ∈ collectGlobalNames o := by
          simpa using hcc
        have := honly "Ma" hmm (by decide)
        exact absurd this (by decide)
  refine ⟨applyFilter (collectGlobalNames o) (LitVal.str "Ma"), ?_, ?_, ?_⟩
  · unfold onAutocomplete
    rw [if_neg (by decide)]
    rw [hparse]
    simp only [hnc, Bool.false_eq_true, if_false, finalKeys, litTruthy]
    rw [if_pos (by decide)]
  · have h2 : jsSliceFrom "Math" (litLengthForSlice (LitVal.str "Ma")) = "th" := by decide
    rw [← h2]
    exact List.mem_map.mpr ⟨"Math",
      List.mem_filter.mpr ⟨hmem, by decide⟩, rfl⟩
  · intro x hx
    rcases List.mem_map.mp hx with ⟨k, hk, hxk⟩
    rcases List.mem_filter.mp hk with ⟨hkm, hks⟩
    have hkM : k = "Math" := honly k hkm hks
    rw [hkM] at hxk
    rw [← hxk]
    decide

/-- Claim C9 amended witness: the concrete `Math`-only environment. -/
theorem maBuffer_completion_witness :
    ∃ l, onAutocomplete mathOracle initState "Ma" = (CompletionOutcome.list l, initState) ∧
      "th" ∈ l ∧ ∀ x ∈ l, x = "th" :=
  maBuffer_completion_amended mathOracle initState rfl (by decide) (by decide)

/-! ## Claim C2 -/

/-- Inline preview writes only the `_inspectTarget` slot: `last` and
`lastError` pass through untouched, whatever the environment answers. -/
theorem oneLineEval_slots (o : Oracle) (st : REPLState) (src : String) :
    (oneLineEval o st src).2.last = st.last ∧
    (oneLineEval o st src).2.lastError = st.lastError := by
  unfold oneLineEval
  dsimp only
  repeat' split
  all_goals exact ⟨rfl, rfl⟩

/-- Description-driven call completion writes only the signature cache. -/
theorem handleCallDescription_slots (o : Oracle) (st : REPLState) (buffer : String)
    (callee : CalleeInfo) (numArgs : Nat) (description : String)
    (objectId : Option String) :
    (handleCallDescription o st buffer callee numArgs description objectId).2.last = st.last ∧
    (handleCallDescription o st buffer callee numArgs description objectId).2.lastError =
      st.lastError := by
  unfold handleCallDescription
  dsimp only
  repeat' split
  all_goals exact ⟨rfl, rfl⟩

/-- The whole call-expression branch writes only the signature cache. -/
theorem handleCallExpr_slots (o : Oracle) (st : REPLState) (buffer : String)
    (callee : CalleeInfo) (numArgs : Nat) :
    (handleCallExpr o st buffer callee numArgs).2.last = st.last ∧
    (handleCallExpr o st buffer callee numArgs).2.lastError = st.lastError := by
  unfold handleCallExpr
  dsimp only
  repeat' split
  all_goals first
    | exact ⟨rfl, rfl⟩
    | exact handleCallDescription_slots o st buffer callee numArgs _ _

/-- Property enumeration either passes the state through or defers to the
inline preview; the two slots survive either way. -/
theorem memberProps_slots (o : Oracle) (st : REPLState) (buffer : String)
    (result : RemoteObject) (filter : Option LitVal) (computed : Bool)
    (leadingQuote : Bool) :
    (memberProps o st buffer result filter computed leadingQuote).2.last = st.last ∧
    (memberProps o st buffer result filter computed leadingQuote).2.lastError =
      st.lastError := by
  unfold memberProps
  dsimp only
  repeat' split
  all_goals first
    | exact ⟨rfl, rfl⟩
    | exact oneLineEval_slots o st buffer

/-- The member-expression branch preserves the two slots. -/
theorem handleMember_slots (o : Oracle) (st : REPLState) (buffer : String)
    (objStart objEnd : Nat) (computed : Bool) (property : LooseProp) :
    (handleMember o st buffer objStart objEnd computed property).2.last = st.last ∧
    (handleMember o st buffer objStart objEnd computed property).2.lastError =
      st.lastError := by
  unfold handleMember
  dsimp only
  repeat' split
  all_goals first
    | exact ⟨rfl, rfl⟩
    | exact memberProps_slots o st buffer _ _ _ _

/-- Claim C2: the speculative paths — `onAutocomplete` on any buffer and the
inline-preview evaluator `oneLineEval` — never write the last-value or
last-error session slots; those are written only by the direct-mode
statement evaluator `onLine`. -/
theorem speculative_paths_preserve_session_slots (o : Oracle) (st : REPLState)
    (buffer : String) :
    ((onAutocomplete o st buffer).2.last = st.last ∧
     (onAutocomplete o st buffer).2.lastError = st.lastError) ∧
    ((oneLineEval o st buffer).2.last = st.last ∧
     (oneLineEval o st buffer).2.lastError = st.lastError) := by
  refine ⟨?_, oneLineEval_slots o st buffer⟩
  unfold onAutocomplete
  dsimp only
  repeat' split
  all_goals first
    | exact ⟨rfl, rfl⟩
    | exact oneLineEval_slots o st buffer
    | exact handleMember_slots o st buffer _ _ _ _
    | exact handleCallExpr_slots o st buffer _ _
    | exact ⟨((oneLineEval_slots o _ buffer).1).trans ((handleCallExpr_slots o st buffer _ _).1),
             ((oneLineEval_slots o _ buffer).2).trans ((handleCallExpr_slots o st buffer _ _).2)⟩
